import Mathlib

/-!
Verification development for the pacsys client library.

Shallow embedding of the parts of the code base that the checked claims
are about:

* `pacsys/acnet/errors.py` — composite ACNET status codes.
* `pacsys/supervised/_policies.py` — policy chain, `PolicyDecision`,
  `RateLimitPolicy`.
* `pacsys/supervised/_event_classify.py` — one-shot / streaming
  classification of DRF events.
* `pacsys/backends/acl.py` — the HTTP CGI backend: line parsing, error
  detection, batch reads with per-device fallback.
* `pacsys/acl_session.py` — the persistent ACL interpreter session.

Python integers are modelled as `Int` (with explicit `emod`/`ediv` where
the code masks or shifts), Python strings as `List Char` where character
level operations matter and as `String` elsewhere, monotonic time as `ℚ`,
and fallible code as `Except`/`Option`.  The HTTP network is an explicit
oracle mapping request URLs to outcomes.
-/

namespace Pacsys

/-! ## pacsys/acnet/errors.py -/

/-- `make_error(facility, error_number)`: composite status code
`facility + error_number * 256`. -/
def make_error (facility : Int) (error_number : Int) : Int :=
  facility + error_number * 256

/-- `parse_error(code)`: recover `(facility, error_number)` from a composite
code.  Python's `code & 0xFF` on an `int` equals `code` modulo 256 (always
non-negative), and `code >> 8` is floor division by 256, which for the
positive divisor 256 coincides with Euclidean division (`Int` `/`). -/
def parse_error (code : Int) : Int × Int :=
  let facility := code % 256
  let e := (code / 256) % 256
  let error_number := if e > 127 then e - 256 else e
  (facility, error_number)

/-- `normalize_error_code(code)`: map an unsigned byte back to the signed
int8 convention. -/
def normalize_error_code (code : Int) : Int :=
  if code > 127 then code - 256 else code

/-- `ERR_OK` from `pacsys/acnet/errors.py`. -/
def ERR_OK : Int := 0

/-- `ERR_RETRY` from `pacsys/acnet/errors.py` (error number of `ACNET_RETRY`). -/
def ERR_RETRY : Int := -1

/-- `ERR_TIMEOUT` from `pacsys/acnet/errors.py` (error number of `ACNET_REQTMO`). -/
def ERR_TIMEOUT : Int := -6

/-! ## pacsys/supervised/_policies.py -/

/-- `RequestContext`: context for a single RPC request. -/
structure RequestContext where
  drfs : List String
  rpc_method : String
  peer : String
  metadata : List (String × String) := []
deriving DecidableEq

/-- `PolicyDecision`: result of a policy check (raw record; the
`__post_init__` validation is `PolicyDecision.make`). -/
structure PolicyDecision where
  allowed : Bool
  reason : Option String := none
deriving DecidableEq

/-- Python `ValueError`. -/
inductive ValueError
  | mk (msg : String)
deriving DecidableEq

/-- Python truthiness of the `reason` field: `None` and `""` are falsy. -/
def reasonFalsy : Option String → Bool
  | none => true
  | some s => s.isEmpty

/-- `PolicyDecision.__post_init__`: constructing a denial without a reason
raises `ValueError`. -/
def PolicyDecision.make (allowed : Bool) (reason : Option String) :
    Except ValueError PolicyDecision :=
  if !allowed && reasonFalsy reason then
    .error (.mk "PolicyDecision must include a reason when denied")
  else
    .ok ⟨allowed, reason⟩

/-- `_ALLOW`: the shared allow decision. -/
def _ALLOW : PolicyDecision := ⟨true, none⟩

/-- A policy's `check` method, modelled as a pure function of the request
context (the stateful `RateLimitPolicy` is modelled separately with
explicit state passing). -/
abbrev Policy := RequestContext → PolicyDecision

/-- `evaluate_policies(policies, ctx)`: first denial short-circuits;
`_ALLOW` if every policy allows. -/
def evaluate_policies : List Policy → RequestContext → PolicyDecision
  | [], _ => _ALLOW
  | p :: rest, ctx =>
    let decision := p ctx
    if decision.allowed then evaluate_policies rest ctx else decision

/-- Invariant of `PolicyDecision` required by the spec: a denial carries a
non-empty reason. -/
def PolicyDecision.Valid (d : PolicyDecision) : Prop :=
  d.allowed = false → ∃ s, d.reason = some s ∧ s ≠ ""

/-! ### RateLimitPolicy

`RateLimitPolicy.check` keeps, per peer, the list of `time.monotonic()`
values of previously allowed calls.  Time is modelled as `ℚ`; each call
carries its own `now` value, and a trace of calls is processed by explicit
state passing (the per-peer dict is a function `String → List ℚ` with
default `[]`). -/

/-- `RateLimitPolicy.__init__` validation: positive `max_requests` and
`window_seconds`. -/
def RateLimitPolicy.make (max_requests : Int) (window_seconds : ℚ) :
    Except ValueError (Int × ℚ) :=
  if max_requests ≤ 0 then
    .error (.mk "max_requests must be positive")
  else if window_seconds ≤ 0 then
    .error (.mk "window_seconds must be positive")
  else
    .ok (max_requests, window_seconds)

/-- One call to `RateLimitPolicy.check`: the calling peer and the value of
`time.monotonic()` at the call. -/
structure RLCall where
  peer : String
  now : ℚ
deriving DecidableEq

/-- The pruning step of `RateLimitPolicy.check`:
`[t for t in times if t > cutoff]` with `cutoff = now - window`. -/
def rateLimit_prune (window now : ℚ) (times : List ℚ) : List ℚ :=
  times.filter (fun t => now - window < t)

/-- `RateLimitPolicy.check`, state-passing form.  Returns the decision and
the updated per-peer timestamp map. -/
def RateLimitPolicy.check (max_requests : ℕ) (window : ℚ)
    (st : String → List ℚ) (c : RLCall) :
    PolicyDecision × (String → List ℚ) :=
  let times := rateLimit_prune window c.now (st c.peer)
  if max_requests ≤ times.length then
    (⟨false, some ("Rate limit exceeded (" ++ toString max_requests ++
        " per " ++ toString window ++ "s)")⟩,
     fun p => if p = c.peer then times else st p)
  else
    (_ALLOW, fun p => if p = c.peer then times ++ [c.now] else st p)

/-- Run a sequence of `RateLimitPolicy.check` calls against one shared
policy instance, recording each call's decision. -/
def rateLimit_run (max_requests : ℕ) (window : ℚ) :
    (String → List ℚ) → List RLCall → List (RLCall × Bool) × (String → List ℚ)
  | st, [] => ([], st)
  | st, c :: cs =>
    let step := RateLimitPolicy.check max_requests window st c
    let rest := rateLimit_run max_requests window step.2 cs
    ((c, step.1.allowed) :: rest.1, rest.2)

/-! ## pacsys/supervised/_event_classify.py

`is_oneshot_event` calls `parse_request` from `pacsys.drf3`, which is not
part of the sources at hand; the event grammar is therefore modelled from
the spec. -/

/-- Modelled from the spec: the event variants of the `pacsys.drf3` DRF
grammar (`DefaultEvent`, `ImmediateEvent`, `NeverEvent`, `PeriodicEvent`
with an uppercased mode character, `ClockEvent`, `StateEvent`); the
`drf3` package is not among the sources. -/
inductive DrfEvent
  | defaultEvent
  | immediate
  | never
  | periodic (raw : List Char) (mode : Char)
  | clock (raw : List Char)
  | state (raw : List Char)
deriving DecidableEq

/-- Modelled from the spec: event parsing by first character ignoring case
(`i→Immediate`, `n→Never`, `p→Periodic` (continuous), `q→Periodic` mode
`Q`, `e→Clock`, `s→State`); the empty event string is a parse error. -/
def parse_event (s : List Char) : Option DrfEvent :=
  match s with
  | [] => none
  | c :: _ =>
    match c.toUpper with
    | 'I' => some .immediate
    | 'N' => some .never
    | 'P' => some (.periodic s 'P')
    | 'Q' => some (.periodic s 'Q')
    | 'E' => some (.clock s)
    | 'S' => some (.state s)
    | _ => none

/-- Strip a trailing `<-HANDLE` backend-routing hint (spec step 1 of DRF
parsing): keep the part before the first `<-`. -/
def beforeFirstHint : List Char → List Char
  | [] => []
  | '<' :: '-' :: _ => []
  | c :: rest => c :: beforeFirstHint rest

/-- Split a (hint-free) DRF body at its last `@`, if any: returns the part
before and the part after. -/
def splitLastAtAux : List Char → List Char × Option (List Char)
  | [] => ([], none)
  | c :: rest =>
    match splitLastAtAux rest with
    | (body, some ev) => (c :: body, some ev)
    | (body, none) =>
      if c = '@' then ([], some rest) else (c :: body, none)

/-- Modelled from the spec: the event component of `parse_request`
(`pacsys.drf3` is not among the sources).  The routing hint is split off
first; a `@` at index 0 or 1 is the device-name delimiter (`@` hints
ANALOG_ALARM), so the event separator is the last `@` at index ≥ 2; a
missing event is `DefaultEvent`. -/
def parse_request_event (drf : List Char) : Option DrfEvent :=
  match beforeFirstHint drf with
  | c0 :: c1 :: rest =>
    match splitLastAtAux rest with
    | (_, some ev) => parse_event ev
    | (_, none) =>
      -- keep the first two characters relevant only to device validation
      let _ := (c0, c1)
      some .defaultEvent
  | _ => some .defaultEvent

/-- `is_oneshot_event(drf)`: `none` models a `DRFParseError` escaping from
`parse_request`. -/
def is_oneshot_event (drf : List Char) : Option Bool :=
  match parse_request_event drf with
  | none => none
  | some ev =>
    some (match ev with
      | .defaultEvent => true
      | .immediate => true
      | .never => true
      | .periodic _ mode => mode == 'Q'
      | _ => false)

/-- `all_oneshot(drfs)`: Python's `all(...)` over a generator — lazily
short-circuits on the first `False`, and a parse error raised before that
propagates (`none`). -/
def all_oneshot : List (List Char) → Option Bool
  | [] => some true
  | d :: ds =>
    match is_oneshot_event d with
    | none => none
    | some false => some false
    | some true => all_oneshot ds

/-- The spec's classification table (§3): one-shot events are Default,
Immediate, Never and Periodic with mode `Q`; continuous periodic, clock
and state events are streaming. -/
def DrfEvent.isOneshotSpec : DrfEvent → Bool
  | .defaultEvent => true
  | .immediate => true
  | .never => true
  | .periodic _ mode => mode == 'Q'
  | .clock _ => false
  | .state _ => false

/-! ## Python string primitives

Character-level models of the Python `str` operations used by
`pacsys/backends/acl.py` and `pacsys/acl_session.py`.  Strings are
`List Char`; only the ASCII behaviour matters for CGI/interpreter
output. -/

/-- Python `str` whitespace as used by `strip()` / `split()`. -/
def pyWs (c : Char) : Bool :=
  c = ' ' || c = '\t' || c = '\n' || c = '\r' || c = '\x0b' || c = '\x0c'

/-- Python `str.strip()`. -/
def pyStrip (s : List Char) : List Char :=
  ((s.dropWhile pyWs).reverse.dropWhile pyWs).reverse

/-- Worker for `pySplitWs`; `acc` holds the current token reversed. -/
def pySplitWsAux : List Char → List Char → List (List Char)
  | [], acc => if acc.isEmpty then [] else [acc.reverse]
  | c :: rest, acc =>
    if pyWs c then
      if acc.isEmpty then pySplitWsAux rest []
      else acc.reverse :: pySplitWsAux rest []
    else pySplitWsAux rest (c :: acc)

/-- Python `str.split()` with no argument: split on whitespace runs,
discarding empty parts. -/
def pySplitWs (s : List Char) : List (List Char) :=
  pySplitWsAux s []

/-- Python line-break characters recognized by `str.splitlines()`. -/
def pyLineBreak (c : Char) : Bool :=
  c = '\n' || c = '\r' || c = '\x0b' || c = '\x0c' ||
  c = '\x1c' || c = '\x1d' || c = '\x1e' || c = '\x85' ||
  c.toNat = 0x2028 || c.toNat = 0x2029

/-- Worker for `pySplitlines`; `\r\n` counts as a single break. -/
def pySplitlinesAux : List Char → List Char → List (List Char)
  | [], acc => if acc.isEmpty then [] else [acc.reverse]
  | '\r' :: '\n' :: rest, acc => acc.reverse :: pySplitlinesAux rest []
  | c :: rest, acc =>
    if pyLineBreak c then acc.reverse :: pySplitlinesAux rest []
    else pySplitlinesAux rest (c :: acc)

/-- Python `str.splitlines()`. -/
def pySplitlines (s : List Char) : List (List Char) :=
  pySplitlinesAux s []

/-- The part after the first `=` (`text.partition("=")[2]`), when `=`
occurs. -/
def afterFirstEq : List Char → Option (List Char)
  | [] => none
  | c :: rest => if c = '=' then some rest else afterFirstEq rest

/-- The part after the first `\n`, when one occurs
(`text.split("\n", 1)[1]`). -/
def afterFirstNl : List Char → Option (List Char)
  | [] => none
  | c :: rest => if c = '\n' then some rest else afterFirstNl rest

/-- Scan the reversed line for the reversed `" - "` marker (a palindrome);
the first match in the reversed list is the last occurrence in the
original, matching `text.rsplit(" - ", 1)`.  `acc` holds the tail already
passed, in original order. -/
def afterLastSepRev : List Char → List Char → Option (List Char)
  | ' ' :: '-' :: ' ' :: _, acc => some acc
  | c :: rest, acc => afterLastSepRev rest (c :: acc)
  | [], _ => none

/-- The tail after the last `" - "` in `s` (`s.rsplit(" - ", 1)[-1]`); and
`none` exactly when `" - " not in s`. -/
def tailAfterLastSep (s : List Char) : Option (List Char) :=
  afterLastSepRev s.reverse []

def isUpperAZ (c : Char) : Bool := 'A' ≤ c && c ≤ 'Z'

def isUpperDigit (c : Char) : Bool :=
  isUpperAZ c || ('0' ≤ c && c ≤ '9')

/-- Worker for `splitOnChar`. -/
def splitOnCharAux (sep : Char) : List Char → List Char → List (List Char)
  | [], acc => [acc.reverse]
  | c :: rest, acc =>
    if c = sep then acc.reverse :: splitOnCharAux sep rest []
    else splitOnCharAux sep rest (c :: acc)

/-- Python `str.split(sep)` with a one-character separator and no limit. -/
def splitOnChar (sep : Char) (s : List Char) : List (List Char) :=
  splitOnCharAux sep s []

/-- Full match against `_ACL_ERROR_CODE_RE = ^[A-Z][A-Z0-9]*(?:_[A-Z0-9]+)+$`.
Splitting the candidate on `_` (which both character classes exclude), the
regex requires at least two parts, the first matching `[A-Z][A-Z0-9]*` and
the others each a non-empty `[A-Z0-9]+`. -/
def aclErrorCodeMatch (s : List Char) : Bool :=
  match splitOnChar '_' s with
  | p0 :: p1 :: rest =>
    (match p0 with
     | c :: cs => isUpperAZ c && cs.all isUpperDigit
     | [] => false) &&
    (p1 :: rest).all (fun p => !p.isEmpty && p.all isUpperDigit)
  | _ => false

/-! ### Python `float()` acceptance

Only which strings convert matters to the claims (the branch taken by
`_parse_acl_line`); converted values are kept as their source tokens. -/

/-- Rest of a PEP 515 digit group: `(_?[0-9])*` after an initial digit. -/
def digitGroupRest : List Char → Bool
  | [] => true
  | '_' :: c :: rest => c.isDigit && digitGroupRest rest
  | c :: rest => c.isDigit && digitGroupRest rest

/-- A digit group `[0-9](_?[0-9])*` (underscores only between digits). -/
def digitGroup : List Char → Bool
  | [] => false
  | c :: rest => c.isDigit && digitGroupRest rest

/-- Worker for `splitAtExp`. -/
def splitAtExpAux : List Char → List Char → Option (List Char × List Char)
  | [], _ => none
  | c :: rest, acc =>
    if c = 'e' || c = 'E' then some (acc.reverse, rest)
    else splitAtExpAux rest (c :: acc)

/-- Split a candidate number at the first exponent marker `e`/`E`. -/
def splitAtExp (s : List Char) : Option (List Char × List Char) :=
  splitAtExpAux s []

/-- Mantissa forms `D`, `D.`, `D.D`, `.D` for a digit group `D`. -/
def isMantissa (s : List Char) : Bool :=
  match splitOnChar '.' s with
  | [ip] => digitGroup ip
  | [ip, fp] =>
    (digitGroup ip && (fp.isEmpty || digitGroup fp)) ||
    (ip.isEmpty && digitGroup fp)
  | _ => false

/-- Strip one optional leading sign. -/
def dropSign : List Char → List Char
  | '+' :: rest => rest
  | '-' :: rest => rest
  | s => s

/-- Acceptance of Python's `float()` constructor (ASCII; candidates here
are already stripped or whitespace-tokenized, so surrounding whitespace
never occurs). -/
def isPyFloat (s : List Char) : Bool :=
  let t := dropSign s
  let low := t.map Char.toLower
  if low = "inf".data || low = "infinity".data || low = "nan".data then true
  else
    match splitAtExp t with
    | none => isMantissa t
    | some (m, e) => isMantissa m && digitGroup (dropSign e)

/-! ## pacsys/backends/acl.py — line parsing -/

/-- `pacsys.types.ValueType`, restricted to the members `acl.py` emits. -/
inductive ValueTypeT
  | SCALAR
  | SCALAR_ARRAY
  | TEXT
deriving DecidableEq

/-- A parsed ACL value.  Converted floats are kept as their source tokens:
only which strings convert, and the shape of the result, matter to the
claims (floating-point arithmetic itself is never performed). -/
inductive ACLValue
  | scalar (tok : List Char)
  | scalarArray (toks : List (List Char))
  | text (s : List Char)
deriving DecidableEq

/-- `_parse_acl_line(text)`: value part after the first `=` (or the whole
line), then, in order: whole string as float, all tokens as floats (more
than one token), all-but-last as floats (more than two tokens), first
token as float, else text. -/
def _parse_acl_line (line : List Char) : ACLValue × ValueTypeT :=
  let text := pyStrip line
  let raw :=
    match afterFirstEq text with
    | some r => pyStrip r
    | none => text
  if raw.isEmpty then (.text text, .TEXT)
  else if isPyFloat raw then (.scalar raw, .SCALAR)
  else
    let tokens := pySplitWs raw
    if decide (1 < tokens.length) && tokens.all isPyFloat then
      (.scalarArray tokens, .SCALAR_ARRAY)
    else if decide (2 < tokens.length) && tokens.dropLast.all isPyFloat then
      (.scalarArray tokens.dropLast, .SCALAR_ARRAY)
    else
      match tokens with
      | t0 :: _ =>
        if isPyFloat t0 then (.scalar t0, .SCALAR) else (.text raw, .TEXT)
      | [] => (.text raw, .TEXT)  -- unreachable: raw is non-empty and stripped

/-- `_is_error_response(text)`: `!`-prefixed lines are errors with the rest
as message; lines whose (stripped) tail after the last `" - "` matches the
error-code pattern are errors with the whole stripped line as message. -/
def _is_error_response (line : List Char) : Bool × Option (List Char) :=
  match pyStrip line with
  | '!' :: rest => (true, some (pyStrip rest))
  | text =>
    match tailAfterLastSep text with
    | some tail =>
      if aclErrorCodeMatch (pyStrip tail) then (true, some text)
      else (false, none)
    | none => (false, none)

/-- Per-line outcome: upstream error message, or parsed value. -/
inductive LineResult
  | err (message : Option (List Char))
  | value (v : ACLValue) (t : ValueTypeT)
deriving DecidableEq

/-- How the backend treats one response line (`_get_many_individual`):
error detection first, value parse otherwise. -/
def classify_line (line : List Char) : LineResult :=
  match _is_error_response line with
  | (true, msg) => .err msg
  | (false, _) =>
    let vt := _parse_acl_line line
    .value vt.1 vt.2

/-- The value-parse steps exactly as C7 words them, with no arity guards:
"all tokens as floats", "all-but-last tokens as floats" (read as requiring
at least one converted token), "first token as float", else text. -/
def spec_parse_value (text : List Char) : LineResult :=
  let raw :=
    match afterFirstEq text with
    | some r => pyStrip r
    | none => text
  if isPyFloat raw then .value (.scalar raw) .SCALAR
  else
    let tokens := pySplitWs raw
    if !tokens.isEmpty && tokens.all isPyFloat then
      .value (.scalarArray tokens) .SCALAR_ARRAY
    else if !tokens.dropLast.isEmpty && tokens.dropLast.all isPyFloat then
      .value (.scalarArray tokens.dropLast) .SCALAR_ARRAY
    else
      match tokens with
      | t0 :: _ =>
        if isPyFloat t0 then .value (.scalar t0) .SCALAR
        else .value (.text raw) .TEXT
      | [] => .value (.text (if raw.isEmpty then text else raw)) .TEXT

/-- C7's claim transcribed literally: `!` error, `" - "`-tail error code,
otherwise the value-parse cascade without arity guards. -/
def spec_classify_line (line : List Char) : LineResult :=
  let text := pyStrip line
  match text with
  | '!' :: rest => .err (some (pyStrip rest))
  | _ =>
    match tailAfterLastSep text with
    | some tail =>
      if aclErrorCodeMatch (pyStrip tail) then .err (some text)
      else spec_parse_value text
    | none => spec_parse_value text

/-- The amended value-parse cascade: as C7 words it, but "all tokens as
floats" applies only to more than one token, "all-but-last tokens as
floats" only to more than two tokens, and an empty value part yields the
whole line as text. -/
def amended_parse_value (line : List Char) : ACLValue × ValueTypeT :=
  let text := pyStrip line
  let raw :=
    match afterFirstEq text with
    | some r => pyStrip r
    | none => text
  if raw.isEmpty then (.text text, .TEXT)
  else if isPyFloat raw then (.scalar raw, .SCALAR)
  else
    let tokens := pySplitWs raw
    if decide (1 < tokens.length) && tokens.all isPyFloat then
      (.scalarArray tokens, .SCALAR_ARRAY)
    else if decide (2 < tokens.length) && tokens.dropLast.all isPyFloat then
      (.scalarArray tokens.dropLast, .SCALAR_ARRAY)
    else
      match tokens with
      | t0 :: _ =>
        if isPyFloat t0 then (.scalar t0, .SCALAR) else (.text raw, .TEXT)
      | [] => (.text raw, .TEXT)

/-! ## pacsys/acl_session.py -/

/-- `_ACL_PROMPT = b"\nACL> "`. -/
def _ACL_PROMPT : List Char := "\nACL> ".data

/-- Modelled from the spec: `RemoteProcess.readUntil` (`pacsys/ssh.py` is
not among the sources).  Receive chunks are concatenated before searching,
so the stream is a single list; the result is everything before the first
occurrence of the marker, which is consumed; `none` when the marker never
arrives. -/
def read_until (marker : List Char) : List Char → Option (List Char)
  | [] => none
  | c :: rest =>
    if marker.isPrefixOf (c :: rest) then some []
    else (read_until marker rest).map (c :: ·)

/-- Outcome of the `read_until` step inside `ACLSession.send`: the
collected bytes before the prompt, or one of the modelled failures. -/
inductive ReadOutcome
  | collected (raw : List Char)
  | exited
  | timedOut
deriving DecidableEq

/-- Result of `ACLSession.send`: the bytes written to the process plus the
returned output, or an `ACLError`. -/
inductive SendResult
  | ok (sent : List Char) (output : List Char)
  | aclError (msg : List Char)
deriving DecidableEq

/-- `ACLSession.send(command)`.  Bytes decoded with UTF-8/replace are
modelled as the characters themselves; `sent` is what `send_line` wrote
(the command plus `\n`, spec §4.E `sendLine`).  The exact text wrapped
into `ACLError` on exit/timeout comes from the SSH layer and is modelled
by representative constants. -/
def ACLSession.send (closed : Bool) (command : List Char)
    (outcome : ReadOutcome) : SendResult :=
  if closed then .aclError "ACL session is closed".data
  else
    match outcome with
    | .exited => .aclError "Process exited".data
    | .timedOut => .aclError "Timeout waiting for marker".data
    | .collected raw =>
      let text := pyStrip raw
      let output :=
        match afterFirstNl text with
        | some rest => pyStrip rest
        | none => []
      .ok (command ++ ['\n']) output

/-- C8's claim transcribed literally: drop the first line of the decoded
output and return the rest trimmed (dropping the only line of a
newline-free text leaves nothing). -/
def spec_send_output (raw : List Char) : List Char :=
  match afterFirstNl raw with
  | some rest => pyStrip rest
  | none => []

/-! ## pacsys/backends/acl.py — the backend

The HTTP network is an oracle mapping a request URL to an outcome; the
four outcome shapes are the cases `_fetch` distinguishes.  `Reading` and
`DeviceError` live in `pacsys/types.py` / `pacsys/errors.py`, which are
not among the sources; their fields and the `ok`/`is_error` accessors are
modelled from the spec (§3).  Timestamps are omitted: no claim mentions
them. -/

/-- Modelled from the spec: `DeviceError(drf, facility, error_code,
message)` from `pacsys/errors.py` (not among the sources). -/
structure DeviceErrorE where
  drf : List Char
  facility_code : Int
  error_code : Int
  message : List Char
deriving DecidableEq

/-- Modelled from the spec: `pacsys.types.Reading` (not among the
sources): `{drf, value_type, value?, facility, error_code, message?}`;
timestamps omitted. -/
structure Reading where
  drf : List Char
  value_type : ValueTypeT
  value : Option ACLValue := none
  facility_code : Int := 0
  error_code : Int := 0
  message : Option (List Char) := none
deriving DecidableEq

/-- Modelled from the spec: `Reading.ok` ⇔ `error_code == 0`. -/
def Reading.ok (r : Reading) : Bool := r.error_code == 0

/-- Modelled from the spec: `Reading.is_error` ⇔ `error_code < 0`. -/
def Reading.is_error (r : Reading) : Bool := decide (r.error_code < 0)

/-- One HTTP fetch outcome, as distinguished by `_fetch`'s handlers. -/
inductive FetchOutcome
  | body (text : List Char)
  | httpError (code : Nat) (reason : List Char)
  | urlError (reason : List Char)
  | timeout
deriving DecidableEq

/-- The network oracle: what `urllib.request.urlopen` does for each URL
during one `get_many` call. -/
abbrev Net := List Char → FetchOutcome

/-- Python exceptions that can escape `get_many`. -/
inductive PyExn
  | runtimeError (msg : List Char)
  | indexError
deriving DecidableEq

/-- The `ACLBackend` state: base URL, the rendering of the effective
timeout (timeout values are only ever interpolated into messages here; the
wire effect of the numeric timeout is part of the oracle), and the closed
flag. -/
structure ACLBackendS where
  base_url : List Char
  timeoutStr : List Char
  closed : Bool
deriving DecidableEq

/-- Characters `urllib.parse.quote` never encodes (ASCII alphanumerics and
`_.-~`). -/
def quoteUnreserved (c : Char) : Bool :=
  c.isAlphanum || c = '_' || c = '.' || c = '-' || c = '~'

/-- The `safe` argument of the `quote` call in `_build_url`. -/
def aclQuoteSafe : List Char := ":[]@,.$|~".data

/-- Upper-case hex digit of `n % 16`. -/
def hexDigit (n : Nat) : Char :=
  if n % 16 < 10 then Char.ofNat ('0'.toNat + n % 16)
  else Char.ofNat ('A'.toNat + n % 16 - 10)

/-- `urllib.parse.quote(s, safe=':[]@,.$|~')` for characters below U+0100
(multi-byte UTF-8 percent-encoding of higher code points is not modelled;
DRF strings are ASCII). -/
def pyQuote (s : List Char) : List Char :=
  s.flatMap fun c =>
    if quoteUnreserved c || c ∈ aclQuoteSafe then [c]
    else ['%', hexDigit (c.toNat / 16), hexDigit c.toNat]

/-- `_ACL_CMD_SEP = "\\;"`. -/
def _ACL_CMD_SEP : List Char := ['\\', ';']

/-- `_build_url(drfs)`: `BASE?acl=read+DRF1\;read+DRF2\;...`. -/
def _build_url (b : ACLBackendS) (drfs : List (List Char)) : List Char :=
  b.base_url ++ "?acl=".data ++
    (List.intercalate _ACL_CMD_SEP
      (drfs.map fun drf => "read+".data ++ pyQuote drf))

/-- `_fetch(url, timeout)`: success body, or a `DeviceError` with
`ERR_RETRY` for HTTP/connection errors and `ERR_TIMEOUT` for timeouts. -/
def _fetch (b : ACLBackendS) (net : Net) (url : List Char) :
    Except DeviceErrorE (List Char) :=
  match net url with
  | .body t => .ok t
  | .httpError code reason =>
    .error ⟨[], 0, ERR_RETRY,
      "ACL request failed (".data ++ url ++ "): HTTP ".data ++
        (toString code).data ++ [' '] ++ reason⟩
  | .urlError reason =>
    .error ⟨[], 0, ERR_RETRY,
      "ACL request failed (".data ++ b.base_url ++ "): ".data ++ reason⟩
  | .timeout =>
    .error ⟨[], 0, ERR_TIMEOUT,
      "ACL request timed out after ".data ++ b.timeoutStr ++ "s (".data ++
        b.base_url ++ ")".data⟩

/-- One iteration of the `_get_many_individual` loop: fetch one device and
build its `Reading`; `.error .indexError` models the `[0]` subscript on an
empty line list. -/
def individual_reading (b : ACLBackendS) (net : Net) (drf : List Char) :
    Except PyExn Reading :=
  match _fetch b net (_build_url b [drf]) with
  | .error e =>
    .ok { drf := drf, value_type := .SCALAR, facility_code := e.facility_code,
          error_code := e.error_code, message := some e.message }
  | .ok text =>
    match pySplitlines (pyStrip text) with
    | [] => .error .indexError
    | line :: _ =>
      match _is_error_response line with
      | (true, msg) =>
        .ok { drf := drf, value_type := .SCALAR, facility_code := 0,
              error_code := ERR_RETRY, message := msg }
      | (false, _) =>
        let vt := _parse_acl_line line
        .ok { drf := drf, value_type := vt.2, value := some vt.1,
              error_code := ERR_OK }

/-- `_get_many_individual(drfs, timeout)`: one request per device; the
first escaping exception aborts the loop. -/
def _get_many_individual (b : ACLBackendS) (net : Net) :
    List (List Char) → Except PyExn (List Reading)
  | [] => .ok []
  | drf :: rest =>
    match individual_reading b net drf with
    | .error e => .error e
    | .ok r =>
      match _get_many_individual b net rest with
      | .error e => .error e
      | .ok rs => .ok (r :: rs)

/-- `ACLBackend.get_many(drfs, timeout)`. -/
def ACLBackend.get_many (b : ACLBackendS) (net : Net)
    (drfs : List (List Char)) : Except PyExn (List Reading) :=
  if b.closed then .error (.runtimeError "Backend is closed".data)
  else if drfs.isEmpty then .ok []
  else
    match _fetch b net (_build_url b drfs) with
    | .error e =>
      -- HTTP-level error — all devices fail
      .ok (drfs.map fun drf =>
        { drf := drf, value_type := .SCALAR, facility_code := e.facility_code,
          error_code := e.error_code, message := some e.message })
    | .ok response_text =>
      -- `lines = response_text.strip().splitlines()`
      if decide ((pySplitlines (pyStrip response_text)).length ≠
            drfs.length) ||
          (pySplitlines (pyStrip response_text)).any
            (fun l => (_is_error_response l).1) then
        _get_many_individual b net drfs
      else
        .ok ((drfs.zip (pySplitlines (pyStrip response_text))).map fun p =>
          let vt := _parse_acl_line p.2
          { drf := p.1, value_type := vt.2, value := some vt.1,
            error_code := ERR_OK })

/-- `ACLBackend.get(drf, timeout)`: `get_many([drf])[0]`. -/
def ACLBackend.get (b : ACLBackendS) (net : Net) (drf : List Char) :
    Except PyExn Reading :=
  match ACLBackend.get_many b net [drf] with
  | .error e => .error e
  | .ok [] => .error .indexError
  | .ok (r :: _) => .ok r

/-- What escapes `ACLBackend.read`: a propagated exception, a
`DeviceError`, or the `assert reading.value is not None` failing. -/
inductive ReadFail
  | exn (e : PyExn)
  | deviceError (e : DeviceErrorE)
  | assertionError
deriving DecidableEq

/-- The `message or f"Read failed with status {...}"` expression in
`ACLBackend.read` (`or` treats `None` and `""` as falsy). -/
def read_error_message (r : Reading) : List Char :=
  match r.message with
  | some m =>
    if m.isEmpty then
      "Read failed with status ".data ++ (toString r.error_code).data
    else m
  | none => "Read failed with status ".data ++ (toString r.error_code).data

/-- `ACLBackend.read(drf, timeout)`: unwrap `get`; raise `DeviceError`
when the reading is not `ok`. -/
def ACLBackend.read (b : ACLBackendS) (net : Net) (drf : List Char) :
    Except ReadFail ACLValue :=
  match ACLBackend.get b net drf with
  | .error e => .error (.exn e)
  | .ok reading =>
    if !reading.ok then
      .error (.deviceError
        ⟨reading.drf, reading.facility_code, reading.error_code,
         read_error_message reading⟩)
    else
      match reading.value with
      | some v => .ok v
      | none => .error .assertionError

/-! ## Theorems -/

/-- C3: for every facility in `[1, 255]` and signed error number in
`[-128, 127]`, `make_error` composes the code as
`facility + 256·error_number`, `parse_error` inverts it, and
`normalize_error_code` maps an unsigned byte `c` to `c` when `c ≤ 127` and
to `c - 256` when `c > 127`. -/
theorem error_code_composition (facility e c : Int)
    (hf : 1 ≤ facility) (hf' : facility ≤ 255)
    (he : -128 ≤ e) (he' : e ≤ 127)
    (hc : 0 ≤ c) (hc' : c ≤ 255) :
    make_error facility e = facility + 256 * e ∧
    parse_error (make_error facility e) = (facility, e) ∧
    normalize_error_code c = (if c ≤ 127 then c else c - 256) := by
  unfold make_error parse_error normalize_error_code
  refine ⟨by ring, ?_, ?_⟩
  · simp only [Prod.mk.injEq]
    constructor
    · omega
    · split_ifs <;> omega
  · split_ifs <;> omega

theorem error_code_composition_witness :
    make_error 15 (-13) = 15 + 256 * (-13) ∧
    parse_error (make_error 15 (-13)) = (15, -13) ∧
    normalize_error_code 255 = (if (255 : Int) ≤ 127 then 255 else 255 - 256) :=
  error_code_composition 15 (-13) 255 (by decide) (by decide) (by decide)
    (by decide) (by decide) (by decide)

/-! ### Policy chain lemmas -/

theorem evaluate_policies_allowed_iff (policies : List Policy)
    (ctx : RequestContext) :
    (evaluate_policies policies ctx).allowed = true ↔
      ∀ p ∈ policies, (p ctx).allowed = true := by
  induction policies with
  | nil => simp [evaluate_policies, _ALLOW]
  | cons p rest ih =>
    simp only [evaluate_policies]
    by_cases h : (p ctx).allowed = true
    · simp only [h, if_true, ih]
      constructor
      · intro hall q hq
        rcases List.mem_cons.mp hq with hq | hq
        · subst hq; exact h
        · exact hall q hq
      · intro hall q hq
        exact hall q (List.mem_cons_of_mem p hq)
    · rw [if_neg (by simpa using h)]
      constructor
      · intro hfalse; exact absurd hfalse h
      · intro hall; exact absurd (hall p (List.mem_cons_self p rest)) h

theorem evaluate_policies_all_allow (policies : List Policy)
    (ctx : RequestContext)
    (h : ∀ p ∈ policies, (p ctx).allowed = true) :
    evaluate_policies policies ctx = _ALLOW := by
  induction policies with
  | nil => rfl
  | cons p rest ih =>
    simp only [evaluate_policies]
    rw [if_pos (by simpa using h p (List.mem_cons_self p rest))]
    exact ih fun q hq => h q (List.mem_cons_of_mem p hq)

theorem evaluate_policies_append_denial (pre suf : List Policy) (d : Policy)
    (ctx : RequestContext)
    (hpre : ∀ p ∈ pre, (p ctx).allowed = true)
    (hd : (d ctx).allowed = false) :
    evaluate_policies (pre ++ d :: suf) ctx = d ctx := by
  induction pre with
  | nil =>
    simp only [List.nil_append, evaluate_policies]
    rw [if_neg (by simp [hd])]
  | cons p rest ih =>
    simp only [List.cons_append, evaluate_policies]
    rw [if_pos (by simpa using hpre p (List.mem_cons_self p rest))]
    exact ih fun q hq => hpre q (List.mem_cons_of_mem p hq)

/-- C1: `evaluate_policies` returns the decision of the first denying
policy — the policies after it never influence the result — and returns
an allow decision exactly when every policy in the list allows (the
shared `_ALLOW` in that case). -/
theorem evaluate_policies_correct
    (policies pre suf : List Policy) (d : Policy) (ctx : RequestContext)
    (hpre : ∀ p ∈ pre, (p ctx).allowed = true)
    (hd : (d ctx).allowed = false) :
    evaluate_policies (pre ++ d :: suf) ctx = d ctx ∧
    ((evaluate_policies policies ctx).allowed = true ↔
      ∀ p ∈ policies, (p ctx).allowed = true) ∧
    ((∀ p ∈ policies, (p ctx).allowed = true) →
      evaluate_policies policies ctx = _ALLOW) :=
  ⟨evaluate_policies_append_denial pre suf d ctx hpre hd,
   evaluate_policies_allowed_iff policies ctx,
   evaluate_policies_all_allow policies ctx⟩

/-- A context used by concrete witnesses. -/
def ctx0 : RequestContext := ⟨["M:OUTTMP"], "Read", "ipv4:127.0.0.1:9999", []⟩

/-- A policy that always denies, used by concrete witnesses. -/
def denyPol : Policy := fun _ => ⟨false, some "no"⟩

/-- A policy that always allows, used by concrete witnesses. -/
def allowPol : Policy := fun _ => _ALLOW

theorem evaluate_policies_correct_witness :
    evaluate_policies ([allowPol] ++ denyPol :: [allowPol]) ctx0 =
        denyPol ctx0 ∧
    ((evaluate_policies [allowPol, denyPol, allowPol] ctx0).allowed = true ↔
      ∀ p ∈ [allowPol, denyPol, allowPol], (p ctx0).allowed = true) ∧
    ((∀ p ∈ [allowPol, denyPol, allowPol], (p ctx0).allowed = true) →
      evaluate_policies [allowPol, denyPol, allowPol] ctx0 = _ALLOW) :=
  evaluate_policies_correct [allowPol, denyPol, allowPol] [allowPol]
    [allowPol] denyPol ctx0
    (by intro p hp; rw [List.mem_singleton] at hp; subst hp; rfl) rfl

theorem evaluate_policies_valid (policies : List Policy)
    (ctx : RequestContext)
    (h : ∀ p ∈ policies, (p ctx).Valid) :
    (evaluate_policies policies ctx).Valid := by
  induction policies with
  | nil => intro hfalse; simp [evaluate_policies, _ALLOW] at hfalse
  | cons p rest ih =>
    simp only [evaluate_policies]
    by_cases hall : (p ctx).allowed = true
    · rw [if_pos (by simpa using hall)]
      exact ih fun q hq => h q (List.mem_cons_of_mem p hq)
    · rw [if_neg (by simpa using hall)]
      exact h p (List.mem_cons_self p rest)

/-- C9: a decision that survives `PolicyDecision.make` (the
`__post_init__` validation) satisfies the denial-implies-non-empty-reason
invariant; construction of a denial with a missing or empty reason fails
with `ValueError`; and `evaluate_policies` over policies returning valid
decisions only produces valid decisions. -/
theorem policy_decision_denial_reason
    (a : Bool) (r : Option String) (policies : List Policy)
    (ctx : RequestContext)
    (hval : ∀ p ∈ policies, (p ctx).Valid) :
    (∀ d, PolicyDecision.make a r = .ok d → d.Valid) ∧
    ((∃ err, PolicyDecision.make a r = .error err) ↔
      a = false ∧ (r = none ∨ r = some "")) ∧
    (evaluate_policies policies ctx).Valid := by
  refine ⟨?_, ?_, evaluate_policies_valid policies ctx hval⟩
  · intro d hd hdeny
    unfold PolicyDecision.make at hd
    by_cases hcond : (!a && reasonFalsy r) = true
    · rw [if_pos hcond] at hd; cases hd
    · rw [if_neg hcond] at hd
      injection hd with hd
      subst hd
      have ha : a = false := hdeny
      subst ha
      simp only [Bool.not_false, Bool.true_and] at hcond
      cases r with
      | none => exact absurd rfl hcond
      | some s =>
        refine ⟨s, rfl, fun hs => ?_⟩
        subst hs
        exact hcond (by decide)
  · unfold PolicyDecision.make
    by_cases hcond : (!a && reasonFalsy r) = true
    · rw [if_pos hcond]
      simp only [Bool.and_eq_true, Bool.not_eq_true'] at hcond
      refine ⟨fun _ => ⟨hcond.1, ?_⟩, fun _ => ⟨_, rfl⟩⟩
      cases r with
      | none => exact Or.inl rfl
      | some s =>
        right
        have h2 := hcond.2
        simp only [reasonFalsy] at h2
        rw [String.isEmpty_iff] at h2
        rw [h2]
    · rw [if_neg hcond]
      constructor
      · rintro ⟨err, herr⟩; cases herr
      · rintro ⟨ha, hr⟩
        subst ha
        exfalso
        apply hcond
        rcases hr with hr | hr <;> subst hr <;> decide

theorem policy_decision_denial_reason_witness :
    (∀ d, PolicyDecision.make false (some "") = .ok d → d.Valid) ∧
    ((∃ err, PolicyDecision.make false (some "") = .error err) ↔
      false = false ∧ ((some "" : Option String) = none ∨
        (some "" : Option String) = some "")) ∧
    (evaluate_policies [denyPol] ctx0).Valid :=
  policy_decision_denial_reason false (some "") [denyPol] ctx0
    (by
      intro p hp
      rw [List.mem_singleton] at hp
      subst hp
      exact fun _ => ⟨"no", rfl, by decide⟩)

/-- C4: on every DRF accepted by the parser, `is_oneshot_event` agrees
with the spec's classification table — true exactly for DefaultEvent
(including an absent event), ImmediateEvent, NeverEvent and PeriodicEvent
with mode `Q`; false for continuous periodic, clock and state events —
and `all_oneshot` holds exactly when every member of the list is
one-shot. -/
theorem is_oneshot_event_classification
    (drf : List Char) (ev : DrfEvent) (drfs : List (List Char))
    (hp : parse_request_event drf = some ev)
    (hall : ∀ d ∈ drfs, ∃ b, is_oneshot_event d = some b) :
    is_oneshot_event drf = some ev.isOneshotSpec ∧
    (all_oneshot drfs = some true ↔
      ∀ d ∈ drfs, is_oneshot_event d = some true) := by
  constructor
  · unfold is_oneshot_event
    rw [hp]
    cases ev <;> rfl
  · clear hp
    induction drfs with
    | nil => simp [all_oneshot]
    | cons d ds ih =>
      obtain ⟨b, hb⟩ := hall d (List.mem_cons_self d ds)
      have ihds := ih fun q hq => hall q (List.mem_cons_of_mem d hq)
      cases b with
      | false =>
        simp only [all_oneshot, hb]
        constructor
        · intro hfalse; cases hfalse
        · intro hforall
          have := hforall d (List.mem_cons_self d ds)
          rw [hb] at this
          cases this
      | true =>
        simp only [all_oneshot, hb, ihds]
        constructor
        · intro hforall q hq
          rcases List.mem_cons.mp hq with hq | hq
          · subst hq; exact hb
          · exact hforall q hq
        · intro hforall q hq
          exact hforall q (List.mem_cons_of_mem d hq)

theorem is_oneshot_event_classification_witness :
    is_oneshot_event "M:OUTTMP@p,1000".data =
      some (DrfEvent.periodic "p,1000".data 'P').isOneshotSpec ∧
    (all_oneshot ["M:OUTTMP".data, "M:OUTTMP@I".data] = some true ↔
      ∀ d ∈ ["M:OUTTMP".data, "M:OUTTMP@I".data],
        is_oneshot_event d = some true) :=
  is_oneshot_event_classification "M:OUTTMP@p,1000".data
    (DrfEvent.periodic "p,1000".data 'P')
    ["M:OUTTMP".data, "M:OUTTMP@I".data]
    (by decide)
    (by decide)

/-! ### C7: ACL line parsing -/

theorem _is_error_response_not_bang (line : List Char)
    (hne : ∀ rest, pyStrip line ≠ '!' :: rest) :
    _is_error_response line =
      (match tailAfterLastSep (pyStrip line) with
       | some tail =>
         if aclErrorCodeMatch (pyStrip tail) then (true, some (pyStrip line))
         else (false, none)
       | none => (false, none)) := by
  unfold _is_error_response
  split
  · next rest heq => exact absurd heq (hne rest)
  · rfl

/-- C7 (corrected) counterexample: on the line `M:OUTTMP = 12.34 DegF` the
claimed cascade — which tries all-but-last tokens as floats with no arity
guard — yields a one-element `ScalarArray`, while the code's cascade
(which requires more than two tokens for that step) yields a `Scalar` from
the first token. -/
theorem acl_line_claim_counterexample :
    spec_classify_line "M:OUTTMP = 12.34 DegF".data ≠
      classify_line "M:OUTTMP = 12.34 DegF".data ∧
    classify_line "M:OUTTMP = 12.34 DegF".data =
      .value (.scalar "12.34".data) .SCALAR ∧
    spec_classify_line "M:OUTTMP = 12.34 DegF".data =
      .value (.scalarArray ["12.34".data]) .SCALAR_ARRAY := by decide

/-- C7 (amended): a line starting with `!` is an error whose message is
the rest of the line; otherwise a line whose stripped tail after the last
`" - "` fully matches `[A-Z][A-Z0-9]*(_[A-Z0-9]+)+` is an error whose
message is the whole (stripped) line; any other line is parsed by the
cascade with arity guards: whole value string as float, all tokens as
floats when more than one token, all-but-last tokens as floats when more
than two tokens, first token as float, else text (an empty value part
giving the whole line as text). -/
theorem acl_line_classification (line : List Char) :
    (∀ rest, pyStrip line = '!' :: rest →
      _is_error_response line = (true, some (pyStrip rest))) ∧
    ((∀ rest, pyStrip line ≠ '!' :: rest) →
      (∀ tail, tailAfterLastSep (pyStrip line) = some tail →
        (aclErrorCodeMatch (pyStrip tail) = true →
          _is_error_response line = (true, some (pyStrip line))) ∧
        (aclErrorCodeMatch (pyStrip tail) = false →
          _is_error_response line = (false, none))) ∧
      (tailAfterLastSep (pyStrip line) = none →
        _is_error_response line = (false, none))) ∧
    _parse_acl_line line = amended_parse_value line ∧
    ((_is_error_response line).1 = false →
      classify_line line =
        .value (amended_parse_value line).1 (amended_parse_value line).2) ∧
    (∀ msg, _is_error_response line = (true, msg) →
      classify_line line = .err msg) := by
  refine ⟨?_, ?_, rfl, ?_, ?_⟩
  · intro rest hbang
    unfold _is_error_response
    rw [hbang]
    rfl
  · intro hne
    rw [_is_error_response_not_bang line hne]
    refine ⟨?_, ?_⟩
    · intro tail htail
      rw [htail]
      constructor
      · intro hm; simp [hm]
      · intro hm; simp [hm]
    · intro hnone
      rw [hnone]
  · intro hfalse
    unfold classify_line
    rcases h : _is_error_response line with ⟨b, msg⟩
    rw [h] at hfalse
    simp only at hfalse
    subst hfalse
    rfl
  · intro msg h
    unfold classify_line
    rw [h]

theorem acl_line_classification_witness :
    _is_error_response "! device error".data =
      (true, some (pyStrip " device error".data)) ∧
    _parse_acl_line "! device error".data =
      amended_parse_value "! device error".data :=
  ⟨(acl_line_classification "! device error".data).1 " device error".data
      (by decide),
   (acl_line_classification "! device error".data).2.2.1⟩

/-! ### C8: ACL interpreter session -/

theorem afterFirstNl_of_not_mem (l : List Char) (h : '\n' ∉ l) :
    afterFirstNl l = none := by
  induction l with
  | nil => rfl
  | cons c cs ih =>
    simp only [afterFirstNl]
    rw [if_neg fun hc => h (by rw [← hc]; exact List.mem_cons_self c cs)]
    exact ih fun hm => h (List.mem_cons_of_mem c hm)

theorem afterFirstNl_append (pre post : List Char) (h : '\n' ∉ pre) :
    afterFirstNl (pre ++ '\n' :: post) = some post := by
  induction pre with
  | nil => simp [afterFirstNl]
  | cons c cs ih =>
    rw [List.cons_append]
    simp only [afterFirstNl]
    rw [if_neg fun hc => h (by rw [← hc]; exact List.mem_cons_self c cs)]
    exact ih fun hm => h (List.mem_cons_of_mem c hm)

theorem read_until_decomposition (marker stream out : List Char)
    (h : read_until marker stream = some out) :
    ∃ suf, stream = out ++ marker ++ suf := by
  induction stream generalizing out with
  | nil => cases h
  | cons c rest ih =>
    unfold read_until at h
    by_cases hp : marker.isPrefixOf (c :: rest)
    · rw [if_pos hp] at h
      injection h with h
      subst h
      rw [List.isPrefixOf_iff_prefix] at hp
      obtain ⟨suf, hsuf⟩ := hp
      exact ⟨suf, by simpa using hsuf.symm⟩
    · rw [if_neg hp] at h
      cases ho : read_until marker rest with
      | none => rw [ho] at h; cases h
      | some o =>
        rw [ho] at h
        injection h with h
        obtain ⟨suf, hsuf⟩ := ih o ho
        subst h
        exact ⟨suf, by simp [hsuf]⟩

/-- C8 (corrected) counterexample: when the collected bytes start with a
newline (the first line is blank, not the echoed command), the claimed
algorithm — decode, drop the first line, trim — returns `out`, while the
code trims first and, finding no newline left, returns the empty
string. -/
theorem acl_session_send_counterexample :
    ACLSession.send false "show".data (.collected "\nout".data) =
      .ok ("show".data ++ ['\n']) [] ∧
    spec_send_output "\nout".data = "out".data ∧
    ([] : List Char) ≠ "out".data := by decide

/-- C8 (amended): `send` writes the command followed by a newline, reads
up to the `"\nACL> "` prompt marker (the collected output is everything
before the marker's first occurrence), trims the decoded text, drops its
first line (the echoed command) and returns the rest trimmed — the empty
string when the trimmed text has no newline — and raises `ACLError` when
the session is closed, the process exits, or the prompt times out. -/
theorem acl_session_send_behavior :
    (∀ command outcome, ACLSession.send true command outcome =
      .aclError "ACL session is closed".data) ∧
    (∀ command,
      (∃ m, ACLSession.send false command .exited = .aclError m) ∧
      (∃ m, ACLSession.send false command .timedOut = .aclError m)) ∧
    (∀ command raw, ∃ output,
      ACLSession.send false command (.collected raw) =
        .ok (command ++ ['\n']) output ∧
      ('\n' ∉ pyStrip raw → output = []) ∧
      (∀ pre post, pyStrip raw = pre ++ '\n' :: post → '\n' ∉ pre →
        output = pyStrip post)) ∧
    (∀ stream res, read_until _ACL_PROMPT stream = some res →
      ∃ suf, stream = res ++ _ACL_PROMPT ++ suf) := by
  refine ⟨fun _ _ => rfl, fun _ => ⟨⟨_, rfl⟩, ⟨_, rfl⟩⟩, ?_, ?_⟩
  · intro command raw
    refine ⟨_, rfl, ?_, ?_⟩
    · intro hnl
      rw [afterFirstNl_of_not_mem _ hnl]
    · intro pre post hsplit hpre
      rw [hsplit, afterFirstNl_append pre post hpre]
  · exact read_until_decomposition _ACL_PROMPT

theorem acl_session_send_behavior_witness :
    ACLSession.send false "show".data (.collected "show\nhello  ".data) =
      .ok ("show".data ++ ['\n']) (pyStrip "hello".data) := by
  obtain ⟨out, h1, _, h3⟩ :=
    acl_session_send_behavior.2.2.1 "show".data "show\nhello  ".data
  have h4 : out = pyStrip "hello".data :=
    h3 "show".data "hello".data (by decide) (by decide)
  rw [h4] at h1
  exact h1

/-! ### ACL backend lemmas -/

theorem _fetch_error_fields (b : ACLBackendS) (net : Net) (url : List Char)
    (e : DeviceErrorE) (h : _fetch b net url = .error e) :
    e.facility_code = 0 ∧
    (e.error_code = ERR_RETRY ∨ e.error_code = ERR_TIMEOUT) := by
  unfold _fetch at h
  cases hnet : net url <;> rw [hnet] at h
  · cases h
  · injection h with h; subst h; exact ⟨rfl, Or.inl rfl⟩
  · injection h with h; subst h; exact ⟨rfl, Or.inl rfl⟩
  · injection h with h; subst h; exact ⟨rfl, Or.inr rfl⟩

/-- The error codes a `Reading` built by the ACL backend can carry: `0`
with a present value, or one of the two negative transport codes. -/
def GoodReading (r : Reading) : Prop :=
  (r.error_code = ERR_OK ∧ ∃ v, r.value = some v) ∨
  r.error_code = ERR_RETRY ∨ r.error_code = ERR_TIMEOUT

theorem individual_reading_props (b : ACLBackendS) (net : Net)
    (drf : List Char) (r : Reading)
    (h : individual_reading b net drf = .ok r) :
    r.drf = drf ∧ GoodReading r := by
  unfold individual_reading at h
  split at h
  · next e heq =>
    injection h with h
    subst h
    obtain ⟨_, hcode⟩ := _fetch_error_fields b net _ e heq
    exact ⟨rfl, Or.inr hcode⟩
  · next text heq =>
    split at h
    · cases h
    · next line restL hl =>
      split at h
      · next msg he =>
        injection h with h
        subst h
        exact ⟨rfl, Or.inr (Or.inl rfl)⟩
      · next snd he =>
        injection h with h
        subst h
        exact ⟨rfl, Or.inl ⟨rfl, _, rfl⟩⟩

theorem get_many_individual_props (b : ACLBackendS) (net : Net)
    (drfs : List (List Char)) (rs : List Reading)
    (h : _get_many_individual b net drfs = .ok rs) :
    rs.length = drfs.length ∧
    (∀ i (h1 : i < drfs.length) (h2 : i < rs.length),
      individual_reading b net (drfs.get ⟨i, h1⟩) = .ok (rs.get ⟨i, h2⟩)) ∧
    (∀ r ∈ rs, GoodReading r) := by
  induction drfs generalizing rs with
  | nil =>
    unfold _get_many_individual at h
    injection h with h
    subst h
    exact ⟨rfl, fun i h1 _ => absurd h1 (Nat.not_lt_zero i), by simp⟩
  | cons d ds ih =>
    unfold _get_many_individual at h
    cases hi : individual_reading b net d with
    | error e => rw [hi] at h; cases h
    | ok r =>
      rw [hi] at h
      cases hrest : _get_many_individual b net ds with
      | error e => rw [hrest] at h; cases h
      | ok rs' =>
        rw [hrest] at h
        injection h with h
        subst h
        obtain ⟨hlen, hidx, hgood⟩ := ih rs' hrest
        refine ⟨by simp [hlen], ?_, ?_⟩
        · intro i h1 h2
          cases i with
          | zero => simpa using hi
          | succ n => exact hidx n (by simpa using h1) (by simpa using h2)
        · intro q hq
          rcases List.mem_cons.mp hq with hq | hq
          · subst hq
            exact (individual_reading_props b net d q hi).2
          · exact hgood q hq

theorem get_many_ok_props (b : ACLBackendS) (net : Net)
    (drfs : List (List Char)) (rs : List Reading)
    (h : ACLBackend.get_many b net drfs = .ok rs) :
    rs.length = drfs.length ∧ ∀ r ∈ rs, GoodReading r := by
  unfold ACLBackend.get_many at h
  split at h
  · cases h
  · split at h
    · next hemp =>
      injection h with h
      subst h
      rw [List.isEmpty_iff] at hemp
      simp [hemp]
    · split at h
      · next e heq =>
        injection h with h
        subst h
        obtain ⟨_, hcode⟩ := _fetch_error_fields b net _ e heq
        refine ⟨by simp, ?_⟩
        intro r hr
        obtain ⟨drf, _, hdrf⟩ := List.mem_map.mp hr
        subst hdrf
        exact Or.inr hcode
      · next text heq =>
        split at h
        · obtain ⟨hlen, _, hgood⟩ := get_many_individual_props b net drfs rs h
          exact ⟨hlen, hgood⟩
        · next hbad =>
          injection h with h
          subst h
          simp only [Bool.or_eq_true, decide_eq_true_eq, not_not,
            not_or] at hbad
          obtain ⟨hlen, _⟩ := hbad
          constructor
          · rw [List.length_map, List.length_zip, hlen, Nat.min_self]
          · intro r hr
            obtain ⟨⟨drf, line⟩, _, hdrf⟩ := List.mem_map.mp hr
            subst hdrf
            exact Or.inl ⟨rfl, _, rfl⟩

/-- C10: when the batch HTTP request itself fails, `get_many` does not
raise: it returns one `Reading` per input DRF in order, all carrying the
transport failure's facility (0), error code (`ERR_RETRY` for HTTP and
connection errors, `ERR_TIMEOUT` for timeouts) and message; and
`get_many([])` returns `[]` for every oracle, performing no request. -/
theorem get_many_transport_failure (b : ACLBackendS)
    (hopen : b.closed = false) :
    (∀ net : Net, ACLBackend.get_many b net [] = .ok []) ∧
    (∀ (net : Net) (drfs : List (List Char)) (e : DeviceErrorE),
      drfs ≠ [] →
      _fetch b net (_build_url b drfs) = .error e →
      ACLBackend.get_many b net drfs =
        .ok (drfs.map fun drf =>
          { drf := drf, value_type := .SCALAR,
            facility_code := e.facility_code,
            error_code := e.error_code, message := some e.message }) ∧
      e.facility_code = 0 ∧
      ((∃ c r, net (_build_url b drfs) = .httpError c r) ∨
        (∃ r, net (_build_url b drfs) = .urlError r) →
        e.error_code = ERR_RETRY) ∧
      (net (_build_url b drfs) = .timeout → e.error_code = ERR_TIMEOUT)) := by
  constructor
  · intro net
    unfold ACLBackend.get_many
    rw [if_neg (by simp [hopen])]
    rfl
  · intro net drfs e hne hf
    refine ⟨?_, ?_⟩
    · unfold ACLBackend.get_many
      rw [if_neg (by simp [hopen]),
        if_neg (by simpa [List.isEmpty_iff] using hne), hf]
    · unfold _fetch at hf
      cases hnet : net (_build_url b drfs) <;> rw [hnet] at hf
      · cases hf
      · injection hf with hf
        subst hf
        exact ⟨rfl, fun _ => rfl, fun htim => by cases htim⟩
      · injection hf with hf
        subst hf
        exact ⟨rfl, fun _ => rfl, fun htim => by cases htim⟩
      · injection hf with hf
        subst hf
        refine ⟨rfl, fun hcon => ?_, fun _ => rfl⟩
        rcases hcon with ⟨c, r, hcon⟩ | ⟨r, hcon⟩ <;> cases hcon

/-- The backend instance used by concrete witnesses. -/
def b0 : ACLBackendS := ⟨"http://cgi".data, "5.0".data, false⟩

/-- A network oracle that always refuses the connection. -/
def netRefused : Net := fun _ => .urlError "connection refused".data

theorem get_many_transport_failure_witness :
    ACLBackend.get_many b0 netRefused ["M:OUTTMP".data] =
      .ok (["M:OUTTMP".data].map fun drf =>
        { drf := drf, value_type := .SCALAR, facility_code := 0,
          error_code := ERR_RETRY,
          message := some ("ACL request failed (".data ++ b0.base_url ++
            "): ".data ++ "connection refused".data) }) :=
  ((get_many_transport_failure b0 rfl).2 netRefused ["M:OUTTMP".data]
    ⟨[], 0, ERR_RETRY,
      "ACL request failed (".data ++ b0.base_url ++ "): ".data ++
        "connection refused".data⟩
    (by decide) rfl).1

theorem read_eq_of_get_ok (b : ACLBackendS) (net : Net) (drf : List Char)
    (r : Reading) (hget : ACLBackend.get b net drf = .ok r) :
    ACLBackend.read b net drf =
      (if !r.ok then
        .error (.deviceError ⟨r.drf, r.facility_code, r.error_code,
          read_error_message r⟩)
      else
        match r.value with
        | some v => .ok v
        | none => .error .assertionError) := by
  unfold ACLBackend.read
  rw [hget]

/-- C5: `read` unwraps `get`.  Every reading `get` produces has error code
0 or negative; on code 0 the value is present and `read` returns it (never
raising); `read` raises `DeviceError` carrying the reading's drf,
facility, error code and message exactly when the code is negative. -/
theorem acl_read_unwraps (b : ACLBackendS) (net : Net) (drf : List Char)
    (r : Reading)
    (hget : ACLBackend.get b net drf = .ok r) :
    (r.error_code = 0 ∨ r.error_code < 0) ∧
    (r.error_code = 0 →
      ∃ v, r.value = some v ∧ ACLBackend.read b net drf = .ok v) ∧
    (r.error_code < 0 ↔
      ACLBackend.read b net drf =
        .error (.deviceError ⟨r.drf, r.facility_code, r.error_code,
          read_error_message r⟩)) := by
  have hgood : GoodReading r := by
    unfold ACLBackend.get at hget
    cases hm : ACLBackend.get_many b net [drf] with
    | error e => rw [hm] at hget; cases hget
    | ok rs =>
      rw [hm] at hget
      cases rs with
      | nil => cases hget
      | cons r0 rest =>
        injection hget with hget
        exact hget ▸ (get_many_ok_props b net [drf] (r0 :: rest) hm).2 r0
          (List.mem_cons_self r0 rest)
  have hdich : r.error_code = 0 ∨ r.error_code < 0 := by
    rcases hgood with ⟨h0, _⟩ | h | h
    · exact Or.inl h0
    · rw [h]; right; decide
    · rw [h]; right; decide
  refine ⟨hdich, ?_, ?_⟩
  · intro h0
    have hval : ∃ v, r.value = some v := by
      rcases hgood with ⟨_, hv⟩ | h | h
      · exact hv
      · rw [h0] at h; cases h
      · rw [h0] at h; cases h
    obtain ⟨v, hv⟩ := hval
    refine ⟨v, hv, ?_⟩
    rw [read_eq_of_get_ok b net drf r hget]
    have hok : r.ok = true := by simp [Reading.ok, h0]
    rw [hok, hv]
    rfl
  · constructor
    · intro hneg
      have hok : r.ok = false := by
        simp only [Reading.ok, beq_eq_false_iff_ne]
        omega
      rw [read_eq_of_get_ok b net drf r hget, hok]
      rfl
    · intro hread
      rcases hdich with h0 | hneg
      · exfalso
        have hval : ∃ v, r.value = some v := by
          rcases hgood with ⟨_, hv⟩ | h | h
          · exact hv
          · rw [h0] at h; cases h
          · rw [h0] at h; cases h
        obtain ⟨v, hv⟩ := hval
        have hok : r.ok = true := by simp [Reading.ok, h0]
        rw [read_eq_of_get_ok b net drf r hget, hok, hv] at hread
        simp at hread
      · exact hneg

/-- A network oracle giving a plain scalar body for every request. -/
def netScalar : Net := fun _ => .body "72.5".data

theorem acl_read_unwraps_witness :
    ((Reading.mk "M:OUTTMP".data .SCALAR (some (.scalar "72.5".data))
        0 0 none).error_code = 0 ∨
      (Reading.mk "M:OUTTMP".data .SCALAR (some (.scalar "72.5".data))
        0 0 none).error_code < 0) ∧
    ((Reading.mk "M:OUTTMP".data .SCALAR (some (.scalar "72.5".data))
        0 0 none).error_code = 0 →
      ∃ v, (Reading.mk "M:OUTTMP".data .SCALAR (some (.scalar "72.5".data))
          0 0 none).value = some v ∧
        ACLBackend.read b0 netScalar "M:OUTTMP".data = .ok v) ∧
    ((Reading.mk "M:OUTTMP".data .SCALAR (some (.scalar "72.5".data))
        0 0 none).error_code < 0 ↔
      ACLBackend.read b0 netScalar "M:OUTTMP".data =
        .error (.deviceError
          ⟨(Reading.mk "M:OUTTMP".data .SCALAR (some (.scalar "72.5".data))
              0 0 none).drf,
           (Reading.mk "M:OUTTMP".data .SCALAR (some (.scalar "72.5".data))
              0 0 none).facility_code,
           (Reading.mk "M:OUTTMP".data .SCALAR (some (.scalar "72.5".data))
              0 0 none).error_code,
           read_error_message
             (Reading.mk "M:OUTTMP".data .SCALAR (some (.scalar "72.5".data))
               0 0 none)⟩)) :=
  acl_read_unwraps b0 netScalar "M:OUTTMP".data
    (Reading.mk "M:OUTTMP".data .SCALAR (some (.scalar "72.5".data)) 0 0 none)
    (by rfl)

/-! ### C2: batch fallback -/

theorem get_many_eq_of_fetch_ok (b : ACLBackendS) (net : Net)
    (drfs : List (List Char)) (text : List Char)
    (hopen : b.closed = false) (hne : drfs ≠ [])
    (hf : _fetch b net (_build_url b drfs) = .ok text) :
    ACLBackend.get_many b net drfs =
      (if decide ((pySplitlines (pyStrip text)).length ≠ drfs.length) ||
          (pySplitlines (pyStrip text)).any
            (fun l => (_is_error_response l).1) then
        _get_many_individual b net drfs
      else
        .ok ((drfs.zip (pySplitlines (pyStrip text))).map fun p =>
          let vt := _parse_acl_line p.2
          { drf := p.1, value_type := vt.2, value := some vt.1,
            error_code := ERR_OK })) := by
  unfold ACLBackend.get_many
  rw [if_neg (by simp [hopen]),
    if_neg (by simpa [List.isEmpty_iff] using hne), hf]

theorem individual_reading_eq_of_body (b : ACLBackendS) (net : Net)
    (drf t : List Char)
    (hnet : net (_build_url b [drf]) = .body t) :
    individual_reading b net drf =
      (match pySplitlines (pyStrip t) with
       | [] => .error .indexError
       | line :: _ =>
         match _is_error_response line with
         | (true, msg) =>
           .ok { drf := drf, value_type := .SCALAR, facility_code := 0,
                 error_code := ERR_RETRY, message := msg }
         | (false, _) =>
           .ok { drf := drf, value_type := (_parse_acl_line line).2,
                 value := some (_parse_acl_line line).1,
                 error_code := ERR_OK }) := by
  unfold individual_reading _fetch
  rw [hnet]

theorem individual_reading_eq_of_line (b : ACLBackendS) (net : Net)
    (drf t line : List Char) (restL : List (List Char))
    (hnet : net (_build_url b [drf]) = .body t)
    (hsplit : pySplitlines (pyStrip t) = line :: restL) :
    individual_reading b net drf =
      (match _is_error_response line with
       | (true, msg) =>
         .ok { drf := drf, value_type := .SCALAR, facility_code := 0,
               error_code := ERR_RETRY, message := msg }
       | (false, _) =>
         .ok { drf := drf, value_type := (_parse_acl_line line).2,
               value := some (_parse_acl_line line).1,
               error_code := ERR_OK }) := by
  rw [individual_reading_eq_of_body b net drf t hnet, hsplit]

theorem individual_reading_classify (b : ACLBackendS) (net : Net)
    (drf : List Char) (r : Reading)
    (h : individual_reading b net drf = .ok r) :
    r.drf = drf ∧
    ∀ t line restL, net (_build_url b [drf]) = .body t →
      pySplitlines (pyStrip t) = line :: restL →
      ((_is_error_response line).1 = false →
        r.error_code = ERR_OK ∧ ∃ v, r.value = some v) ∧
      (∀ m, _is_error_response line = (true, m) →
        r.error_code = ERR_RETRY ∧ r.message = m) := by
  refine ⟨(individual_reading_props b net drf r h).1, ?_⟩
  intro t line restL hnet hsplit
  rw [individual_reading_eq_of_line b net drf t line restL hnet hsplit] at h
  rcases he : _is_error_response line with ⟨flag, msg⟩
  rw [he] at h
  cases flag
  · injection h with h
    refine ⟨fun _ => ⟨by rw [← h], _, by rw [← h]⟩, fun m hm => ?_⟩
    injection hm with h1 _
    cases h1
  · injection h with h
    refine ⟨fun hfalse => ?_, fun m hm => ?_⟩
    · cases hfalse
    · injection hm with _ h2
      subst h2
      exact ⟨by rw [← h], by rw [← h]⟩

theorem individual_reading_total (b : ACLBackendS) (net : Net)
    (drf : List Char)
    (hnl : ∀ t, net (_build_url b [drf]) = .body t →
      pySplitlines (pyStrip t) ≠ []) :
    ∃ r, individual_reading b net drf = .ok r := by
  cases hf : net (_build_url b [drf]) with
  | body t =>
    cases hl : pySplitlines (pyStrip t) with
    | nil => exact absurd hl (hnl t hf)
    | cons line restL =>
      rw [individual_reading_eq_of_line b net drf t line restL hf hl]
      rcases he : _is_error_response line with ⟨flag, msg⟩
      cases flag
      · exact ⟨_, rfl⟩
      · exact ⟨_, rfl⟩
  | httpError code reason =>
    unfold individual_reading _fetch
    rw [hf]
    exact ⟨_, rfl⟩
  | urlError reason =>
    unfold individual_reading _fetch
    rw [hf]
    exact ⟨_, rfl⟩
  | timeout =>
    unfold individual_reading _fetch
    rw [hf]
    exact ⟨_, rfl⟩

theorem get_many_individual_total (b : ACLBackendS) (net : Net)
    (drfs : List (List Char))
    (hlines : ∀ drf ∈ drfs, ∀ t, net (_build_url b [drf]) = .body t →
      pySplitlines (pyStrip t) ≠ []) :
    ∃ rs, _get_many_individual b net drfs = .ok rs := by
  induction drfs with
  | nil => exact ⟨[], rfl⟩
  | cons d ds ih =>
    obtain ⟨r, hr⟩ :=
      individual_reading_total b net d (hlines d (List.mem_cons_self d ds))
    obtain ⟨rs, hrs⟩ := ih fun q hq => hlines q (List.mem_cons_of_mem d hq)
    refine ⟨r :: rs, ?_⟩
    unfold _get_many_individual
    rw [hr, hrs]

/-- A network oracle that returns an empty body for every request. -/
def netEmpty : Net := fun _ => .body []

/-- C2 (corrected) counterexample: with one device and an empty batch body
(0 lines ≠ 1) the per-device fallback runs, but the individual response is
also empty, and `response_text.strip().splitlines()[0]` raises
`IndexError` — `get_many` returns no readings at all instead of one
`Reading` per input DRF. -/
theorem get_many_fallback_counterexample :
    ACLBackend.get_many b0 netEmpty ["Z:BAD".data] = .error .indexError := by
  rfl

/-- C2 (amended): when the batch response has a line count different from
the number of DRFs or contains an error line, `get_many` reissues one
per-device request per input DRF and — provided every per-device success
response has at least one line — returns exactly one `Reading` per input
DRF in input order: a device whose individual response line is not an
error line is `ok` (`error_code == 0`, value present); one whose line is
an error line `is_error` with `error_code == ERR_RETRY` and the upstream
message preserved. -/
theorem get_many_batch_fallback (b : ACLBackendS) (net : Net)
    (drfs : List (List Char)) (batch : List Char)
    (hopen : b.closed = false)
    (hne : drfs ≠ [])
    (hbatch : net (_build_url b drfs) = .body batch)
    (hbad : (pySplitlines (pyStrip batch)).length ≠ drfs.length ∨
      ∃ l ∈ pySplitlines (pyStrip batch), (_is_error_response l).1 = true)
    (hlines : ∀ drf ∈ drfs, ∀ t, net (_build_url b [drf]) = .body t →
      pySplitlines (pyStrip t) ≠ []) :
    ACLBackend.get_many b net drfs = _get_many_individual b net drfs ∧
    ∃ rs, ACLBackend.get_many b net drfs = .ok rs ∧
      rs.length = drfs.length ∧
      ∀ i (h1 : i < drfs.length) (h2 : i < rs.length),
        (rs.get ⟨i, h2⟩).drf = drfs.get ⟨i, h1⟩ ∧
        ∀ t line restL,
          net (_build_url b [drfs.get ⟨i, h1⟩]) = .body t →
          pySplitlines (pyStrip t) = line :: restL →
          ((_is_error_response line).1 = false →
            (rs.get ⟨i, h2⟩).ok = true ∧
            ∃ v, (rs.get ⟨i, h2⟩).value = some v) ∧
          (∀ m, _is_error_response line = (true, m) →
            (rs.get ⟨i, h2⟩).is_error = true ∧
            (rs.get ⟨i, h2⟩).error_code = ERR_RETRY ∧
            (rs.get ⟨i, h2⟩).message = m) := by
  have hfok : _fetch b net (_build_url b drfs) = .ok batch := by
    unfold _fetch
    rw [hbatch]
  have hcond : (decide ((pySplitlines (pyStrip batch)).length ≠ drfs.length) ||
      (pySplitlines (pyStrip batch)).any
        (fun l => (_is_error_response l).1)) = true := by
    rcases hbad with hl | ⟨l, hml, hfl⟩
    · simp only [Bool.or_eq_true, decide_eq_true_eq]
      exact Or.inl hl
    · simp only [Bool.or_eq_true]
      exact Or.inr (List.any_eq_true.mpr ⟨l, hml, hfl⟩)
  have heq : ACLBackend.get_many b net drfs = _get_many_individual b net drfs := by
    rw [get_many_eq_of_fetch_ok b net drfs batch hopen hne hfok, if_pos hcond]
  obtain ⟨rs, hrs⟩ := get_many_individual_total b net drfs hlines
  obtain ⟨hlen, hidx, _⟩ := get_many_individual_props b net drfs rs hrs
  refine ⟨heq, rs, heq.trans hrs, hlen, ?_⟩
  intro i h1 h2
  have hi := hidx i h1 h2
  obtain ⟨hdrf, hcls⟩ :=
    individual_reading_classify b net (drfs.get ⟨i, h1⟩) (rs.get ⟨i, h2⟩) hi
  refine ⟨hdrf, ?_⟩
  intro t line restL hnet hsplit
  obtain ⟨hok, herr⟩ := hcls t line restL hnet hsplit
  constructor
  · intro hfalse
    obtain ⟨hcode, hval⟩ := hok hfalse
    refine ⟨?_, hval⟩
    simp only [Reading.ok]
    rw [hcode]
    decide
  · intro m hm
    obtain ⟨hcode, hmsg⟩ := herr m hm
    refine ⟨?_, hcode, hmsg⟩
    simp only [Reading.is_error]
    rw [hcode]
    decide

/-- A network oracle whose batch response is an abort line while each
per-device request gets a value line. -/
def netBatchAbort : Net := fun url =>
  if url = _build_url b0 ["M:OUTTMP".data, "Z:BAD".data] then
    .body "! abort".data
  else
    .body "M:OUTTMP = 72.5".data

theorem get_many_batch_fallback_witness :
    ACLBackend.get_many b0 netBatchAbort ["M:OUTTMP".data, "Z:BAD".data] =
      _get_many_individual b0 netBatchAbort
        ["M:OUTTMP".data, "Z:BAD".data] :=
  (get_many_batch_fallback b0 netBatchAbort
    ["M:OUTTMP".data, "Z:BAD".data] "! abort".data rfl (by decide) rfl
    (Or.inl (by decide))
    (by
      intro drf hdrf t hnet
      rcases List.mem_cons.mp hdrf with hd | hdrf
      · subst hd
        have h2 : netBatchAbort (_build_url b0 ["M:OUTTMP".data]) =
            .body "M:OUTTMP = 72.5".data := by rfl
        rw [h2] at hnet
        injection hnet with hnet
        subst hnet
        decide
      · rcases List.mem_cons.mp hdrf with hd | hdrf
        · subst hd
          have h2 : netBatchAbort (_build_url b0 ["Z:BAD".data]) =
              .body "M:OUTTMP = 72.5".data := by rfl
          rw [h2] at hnet
          injection hnet with hnet
          subst hnet
          decide
        · cases hdrf)).1

/-! ### C6: rate limiter lemmas -/

/-- The `now` values of the allowed calls for peer `p` in a run output. -/
def allowedNows (p : String) (out : List (RLCall × Bool)) : List ℚ :=
  (out.filter (fun cb => cb.1.peer == p && cb.2)).map (fun cb => cb.1.now)

/-- The `now` of the last call for peer `p` in the trace, if any. -/
def lastPeerNow (p : String) (cs : List RLCall) : Option ℚ :=
  ((cs.filter (fun c => c.peer == p)).map (fun c => c.now)).getLast?

theorem rateLimit_run_append (max_requests : ℕ) (w : ℚ)
    (st : String → List ℚ) (cs : List RLCall) (c : RLCall) :
    rateLimit_run max_requests w st (cs ++ [c]) =
      ((rateLimit_run max_requests w st cs).1 ++
        [(c, (RateLimitPolicy.check max_requests w
          (rateLimit_run max_requests w st cs).2 c).1.allowed)],
       (RateLimitPolicy.check max_requests w
         (rateLimit_run max_requests w st cs).2 c).2) := by
  induction cs generalizing st with
  | nil => rfl
  | cons d ds ih =>
    simp only [List.cons_append, rateLimit_run, List.append_eq, ih]

theorem allowedNows_append (p : String) (out : List (RLCall × Bool))
    (x : RLCall × Bool) :
    allowedNows p (out ++ [x]) =
      allowedNows p out ++
        (if x.1.peer == p && x.2 then [x.1.now] else []) := by
  unfold allowedNows
  rw [List.filter_append, List.map_append]
  congr 1
  by_cases hx : (x.1.peer == p && x.2) = true
  · rw [if_pos hx]
    simp [List.filter, hx]
  · rw [if_neg hx]
    simp only [Bool.not_eq_true] at hx
    simp [List.filter, hx]

theorem mem_of_getLast?_eq_some {α : Type} {l : List α} {x : α}
    (h : l.getLast? = some x) : x ∈ l := by
  induction l with
  | nil => cases h
  | cons a l ih =>
    cases l with
    | nil =>
      rw [List.getLast?_singleton] at h
      injection h with h
      subst h
      exact List.mem_cons_self a []
    | cons b l' =>
      rw [List.getLast?_cons_cons] at h
      exact List.mem_cons_of_mem a (ih h)

theorem lastPeerNow_append (p : String) (cs : List RLCall) (c : RLCall) :
    lastPeerNow p (cs ++ [c]) =
      (if c.peer == p then some c.now else lastPeerNow p cs) := by
  unfold lastPeerNow
  rw [List.filter_append]
  by_cases hc : (c.peer == p) = true
  · simp [hc]
  · simp only [Bool.not_eq_true] at hc
    simp [hc]

theorem lastPeerNow_le (p : String) (cs : List RLCall) (l0 bound : ℚ)
    (h : lastPeerNow p cs = some l0)
    (hb : ∀ x ∈ cs, x.now ≤ bound) : l0 ≤ bound := by
  have hmem := mem_of_getLast?_eq_some h
  obtain ⟨call, hcall, hnow⟩ := List.mem_map.mp hmem
  exact hnow ▸ hb call (List.mem_of_mem_filter hcall)

theorem filter_cutoff (A : List ℚ) (x y : ℚ) (hxy : x ≤ y) :
    (A.filter (fun t => decide (x < t))).filter
        (fun t => decide (y < t)) =
      A.filter (fun t => decide (y < t)) := by
  rw [List.filter_filter]
  apply List.filter_congr
  intro t _
  by_cases h : y < t
  · simp [h, lt_of_le_of_lt hxy h]
  · simp [h]

/-- Invariant of the rate limiter: after running a monotone trace from the
empty map, a peer's stored timestamp list is exactly the list of its
allowed call times, pruned at the peer's last call. -/
theorem rateLimit_state_inv (max_requests : ℕ) (w : ℚ) (hw : 0 < w)
    (cs : List RLCall)
    (hmono : cs.Pairwise (fun x y => x.now ≤ y.now)) (p : String) :
    (lastPeerNow p cs = none →
      (rateLimit_run max_requests w (fun _ => []) cs).2 p = [] ∧
      allowedNows p (rateLimit_run max_requests w (fun _ => []) cs).1 = []) ∧
    (∀ l0, lastPeerNow p cs = some l0 →
      (rateLimit_run max_requests w (fun _ => []) cs).2 p =
        (allowedNows p
          (rateLimit_run max_requests w (fun _ => []) cs).1).filter
          (fun t => decide (l0 - w < t))) := by
  induction cs using List.reverseRecOn with
  | nil => exact ⟨fun _ => ⟨rfl, rfl⟩, fun l0 h => by cases h⟩
  | append_singleton cs c ih =>
    rw [List.pairwise_append] at hmono
    obtain ⟨hm1, _, hcross⟩ := hmono
    obtain ⟨hnone, hsome⟩ := ih hm1
    rw [rateLimit_run_append, lastPeerNow_append]
    rcases hchk : RateLimitPolicy.check max_requests w
      (rateLimit_run max_requests w (fun _ => []) cs).2 c with ⟨dec, st2⟩
    simp only
    by_cases hpeer : (c.peer == p) = true
    · have hpe : c.peer = p := by simpa using hpeer
      rw [if_pos hpeer]
      refine ⟨fun h => Option.noConfusion h, fun l0 hl0 => ?_⟩
      injection hl0 with hl0
      subst hl0
      unfold RateLimitPolicy.check at hchk
      by_cases hmax : max_requests ≤ (rateLimit_prune w c.now
          ((rateLimit_run max_requests w (fun _ => []) cs).2 c.peer)).length
      · -- denial: timestamps pruned, no append
        rw [if_pos hmax] at hchk
        injection hchk with h1 h2
        subst h2
        rw [allowedNows_append, if_neg (by rw [← h1]; simp)]
        rw [List.append_nil]
        rcases hcase : lastPeerNow p cs with _ | l1
        · obtain ⟨hstp, hA⟩ := hnone hcase
          rw [hpe, hstp, hA]
          simp [rateLimit_prune]
        · have hstp := hsome l1 hcase
          have hle : l1 ≤ c.now :=
            lastPeerNow_le p cs l1 c.now hcase fun x hx =>
              hcross x hx c (List.mem_cons_self c [])
          rw [hpe, hstp]
          beta_reduce
          rw [if_pos (show p = p from rfl)]
          unfold rateLimit_prune
          exact filter_cutoff _ (l1 - w) (c.now - w) (by linarith)
      · -- allow: timestamp appended
        rw [if_neg hmax] at hchk
        injection hchk with h1 h2
        subst h2
        rw [allowedNows_append, if_pos (by rw [← h1]; simp [hpeer, _ALLOW])]
        have hcw : c.now - w < c.now := by linarith
        rcases hcase : lastPeerNow p cs with _ | l1
        · obtain ⟨hstp, hA⟩ := hnone hcase
          rw [hpe, hstp, hA]
          simp [rateLimit_prune, hcw]
        · have hstp := hsome l1 hcase
          have hle : l1 ≤ c.now :=
            lastPeerNow_le p cs l1 c.now hcase fun x hx =>
              hcross x hx c (List.mem_cons_self c [])
          rw [hpe, hstp]
          beta_reduce
          rw [if_pos (show p = p from rfl)]
          unfold rateLimit_prune
          rw [filter_cutoff _ (l1 - w) (c.now - w) (by linarith),
            List.filter_append]
          congr 1
          simp [hcw]
    · have hpe : c.peer ≠ p := by simpa using hpeer
      rw [if_neg hpeer]
      have hst2 : st2 p = (rateLimit_run max_requests w (fun _ => []) cs).2 p := by
        unfold RateLimitPolicy.check at hchk
        by_cases hmax : max_requests ≤ (rateLimit_prune w c.now
            ((rateLimit_run max_requests w (fun _ => []) cs).2 c.peer)).length
        · rw [if_pos hmax] at hchk
          injection hchk with h1 h2
          rw [← h2]
          exact if_neg fun hq => hpe hq.symm
        · rw [if_neg hmax] at hchk
          injection hchk with h1 h2
          rw [← h2]
          exact if_neg fun hq => hpe hq.symm
      have hallow : allowedNows p ((rateLimit_run max_requests w
          (fun _ => []) cs).1 ++ [(c, dec.allowed)]) =
          allowedNows p (rateLimit_run max_requests w (fun _ => []) cs).1 := by
        rw [allowedNows_append, if_neg (by simp [hpeer]), List.append_nil]
      rw [hst2, hallow]
      exact ⟨hnone, hsome⟩

/-- The sliding-window safety bound: over any monotone trace, the allowed
calls of a peer with timestamps inside one window of length `w` never
exceed `max_requests`. -/
theorem rateLimit_window_bound (max_requests : ℕ) (w : ℚ) (hw : 0 < w)
    (cs : List RLCall) (hmono : cs.Pairwise (fun x y => x.now ≤ y.now))
    (p : String) (a : ℚ) :
    ((allowedNows p (rateLimit_run max_requests w (fun _ => []) cs).1).filter
      (fun t => decide (a < t) && decide (t ≤ a + w))).length ≤
      max_requests := by
  induction cs using List.reverseRecOn with
  | nil => simp [rateLimit_run, allowedNows]
  | append_singleton cs c ih =>
    rw [List.pairwise_append] at hmono
    obtain ⟨hm1, _, hcross⟩ := hmono
    have ihb := ih hm1
    rw [rateLimit_run_append]
    rcases hchk : RateLimitPolicy.check max_requests w
      (rateLimit_run max_requests w (fun _ => []) cs).2 c with ⟨dec, st2⟩
    simp only
    rw [allowedNows_append]
    by_cases hsel : (c.peer == p && dec.allowed) = true
    · rw [if_pos hsel, List.filter_append]
      by_cases hint : (decide (a < c.now) && decide (c.now ≤ a + w)) = true
      · -- the new call is counted: the prefix must hold < max_requests
        have hpe : c.peer = p := by
          have hx := (Bool.and_eq_true _ _).mp hsel
          simpa using hx.1
        have hdec : dec.allowed = true := ((Bool.and_eq_true _ _).mp hsel).2
        have hsingle : List.filter
            (fun t => decide (a < t) && decide (t ≤ a + w)) [c.now] =
            [c.now] := by
          simp only [List.filter, hint]
        rw [hsingle, List.length_append, List.length_singleton]
        simp only [Bool.and_eq_true, decide_eq_true_eq] at hint
        obtain ⟨hia, hiw⟩ := hint
        unfold RateLimitPolicy.check at hchk
        by_cases hmax : max_requests ≤ (rateLimit_prune w c.now
            ((rateLimit_run max_requests w (fun _ => []) cs).2 c.peer)).length
        · rw [if_pos hmax] at hchk
          injection hchk with h1 _
          rw [← h1] at hdec
          cases hdec
        · rw [if_neg hmax] at hchk
          push_neg at hmax
          obtain ⟨hnone, hsome⟩ :=
            rateLimit_state_inv max_requests w hw cs hm1 p
          have hfin : ((allowedNows p (rateLimit_run max_requests w
              (fun _ => []) cs).1).filter
              (fun t => decide (a < t) && decide (t ≤ a + w))).length ≤
              (rateLimit_prune w c.now ((rateLimit_run max_requests w
                (fun _ => []) cs).2 c.peer)).length := by
            rcases hcase : lastPeerNow p cs with _ | l1
            · obtain ⟨hstp, hA⟩ := hnone hcase
              rw [hA]
              simp
            · have hstp := hsome l1 hcase
              have hle : l1 ≤ c.now := lastPeerNow_le p cs l1 c.now hcase
                fun x hx => hcross x hx c (List.mem_cons_self c [])
              rw [hpe, hstp]
              unfold rateLimit_prune
              rw [filter_cutoff _ (l1 - w) (c.now - w) (by linarith)]
              refine List.Sublist.length_le
                (List.monotone_filter_right _ ?_)
              intro t ht
              simp only [Bool.and_eq_true, decide_eq_true_eq] at ht
              simp only [decide_eq_true_eq]
              linarith [ht.1]
          omega
      · have hsingle : List.filter
            (fun t => decide (a < t) && decide (t ≤ a + w)) [c.now] =
            [] := by
          simp only [List.filter, Bool.not_eq_true] at hint ⊢
          rw [hint]
        rw [hsingle, List.append_nil]
        exact ihb
    · rw [if_neg hsel, List.append_nil]
      exact ihb

/-- C6: each `RateLimitPolicy.check` call first prunes the calling peer's
timestamps to those newer than `now - window`; with `max_requests` or more
retained it denies with the configured message and records no new
timestamp, otherwise it appends the current timestamp and allows.
Consequently, over any run with a monotone clock, a peer never gets more
than `max_requests` allowed calls whose timestamps fall within any single
window. -/
theorem rate_limit_sliding_window (max_requests : ℕ) (w : ℚ) (hw : 0 < w)
    (cs : List RLCall) (hmono : cs.Pairwise (fun x y => x.now ≤ y.now))
    (p : String) (a : ℚ) :
    (∀ (st : String → List ℚ) (c : RLCall),
      (max_requests ≤ (rateLimit_prune w c.now (st c.peer)).length →
        ∃ reason, reason ≠ "" ∧
          RateLimitPolicy.check max_requests w st c =
            (⟨false, some reason⟩,
             fun q => if q = c.peer then
               rateLimit_prune w c.now (st c.peer) else st q)) ∧
      ((rateLimit_prune w c.now (st c.peer)).length < max_requests →
        RateLimitPolicy.check max_requests w st c =
          (_ALLOW,
           fun q => if q = c.peer then
             rateLimit_prune w c.now (st c.peer) ++ [c.now] else st q))) ∧
    ((allowedNows p (rateLimit_run max_requests w (fun _ => []) cs).1).filter
      (fun t => decide (a < t) && decide (t ≤ a + w))).length ≤
      max_requests := by
  refine ⟨?_, rateLimit_window_bound max_requests w hw cs hmono p a⟩
  intro st c
  constructor
  · intro hmax
    refine ⟨"Rate limit exceeded (" ++ toString max_requests ++ " per " ++
      toString w ++ "s)", ?_, ?_⟩
    · intro hcontra
      have hlen := congrArg String.length hcontra
      simp only [String.length_append] at hlen
      have h21 : ("Rate limit exceeded (" : String).length = 21 := by decide
      have h0 : ("" : String).length = 0 := by decide
      omega
    · unfold RateLimitPolicy.check
      rw [if_pos hmax]
  · intro hlt
    unfold RateLimitPolicy.check
    rw [if_neg (by omega)]

/-- A trace for the rate-limit witness: three calls from one peer, then
one from another, with a nondecreasing clock. -/
def rlTrace : List RLCall :=
  [⟨"ipv4:10.0.0.1:1", 0⟩, ⟨"ipv4:10.0.0.1:1", 1⟩,
   ⟨"ipv4:10.0.0.1:1", 2⟩, ⟨"ipv4:10.0.0.2:7", 3⟩]

theorem rate_limit_sliding_window_witness :
    ((allowedNows "ipv4:10.0.0.1:1"
      (rateLimit_run 2 10 (fun _ => []) rlTrace).1).filter
      (fun t => decide ((0 : ℚ) < t) && decide (t ≤ 0 + 10))).length ≤ 2 :=
  (rate_limit_sliding_window 2 10 (by norm_num) rlTrace
    (by
      unfold rlTrace
      refine List.Pairwise.cons ?_ (List.Pairwise.cons ?_
        (List.Pairwise.cons ?_ (List.Pairwise.cons ?_ List.Pairwise.nil)))
          <;> intro b hb <;> fin_cases hb <;> norm_num)
    "ipv4:10.0.0.1:1" 0).2

end Pacsys
